import Mathlib

/-!
# Verification of the paxml training-loop orchestrator and checkpoint lifecycle

Shallow embedding of `paxml/train.py` and `paxml/executors.py`:
the duration parser `_parse_duration`, the two training checkpointers
(`_OrbaxPjitTrainingCheckpointer` and `_OrbaxPmapTrainingCheckpointer`),
and the common training loop `_train_and_evaluate_common`.

Collaborators that live outside these two files (the Orbax checkpoint
manager, `trainer_lib.check_unique_names`, `py_utils.total_num_vars`,
the replication of a pmap model state) are modelled from the design
spec; each such definition carries a doc comment starting with
`Modelled from the spec:`.
-/

namespace Paxml

/-! ## Duration parser (`_parse_duration`, train.py lines 87-121)

The Python code matches `re.compile(r'(\d+)(\w)*').match(s)`: group 1 is
the maximal leading digit run, and the starred single-character group 2
captures one word character per repetition, so after the match group 2
holds the *last* character of the maximal word-character run following
the digits (or `None` when that run is empty).  Characters after the
first non-word character are never examined.  We model `\d` and `\w`
over ASCII. -/

/-- ASCII model of the regex class `\d`. -/
def isDigitChar (c : Char) : Bool := c.isDigit

/-- ASCII model of the regex class `\w`: letters, digits and underscore. -/
def isWordChar (c : Char) : Bool := c.isAlphanum || c == '_'

/-- `int(...)` on the leading digit run (base 10, like Python `int`). -/
def digitsToNat (ds : List Char) : Nat :=
  ds.foldl (fun acc c => 10 * acc + (c.toNat - 48)) 0

/-- Core of `_parse_duration` on the character list of the input string.
Returns `.ok none` for the falsy (empty) string, `.ok (some seconds)` on a
successful parse and `.error ()` for a `ValueError`. -/
def parseDurationChars (cs : List Char) : Except Unit (Option Nat) :=
  match cs with
  | [] => .ok none
  | _ =>
    let ds := cs.takeWhile isDigitChar
    if ds.isEmpty then .error ()
    else
      let rest := cs.dropWhile isDigitChar
      let ws := rest.takeWhile isWordChar
      match ws.getLast? with
      | none => .ok (some (digitsToNat ds))
      | some c =>
        if c = 's' then .ok (some (digitsToNat ds))
        else if c = 'm' then .ok (some (digitsToNat ds * 60))
        else if c = 'h' then .ok (some (digitsToNat ds * 3600))
        else if c = 'd' then .ok (some (digitsToNat ds * 86400))
        else .error ()

/-- `_parse_duration(duration_str)`: `None` and the empty string map to no
interval; otherwise parse per the regex above. -/
def parseDuration : Option String → Except Unit (Option Nat)
  | none => .ok none
  | some s => parseDurationChars s.toList

/-! ## Data model -/

/-- The mutable state of the computation: the step counter plus the model
variables, each represented by its array shape (`mdl_vars` as a flat list
of shapes).  Parameter counting and (un)replication act on the shapes. -/
structure TrainState where
  step : Nat
  mdlVars : List (List Nat)
deriving DecidableEq, Repr

/-- Modelled from the spec: `py_utils.total_num_vars` (praxis collaborator) —
the total parameter count of a set of model variables, the sum over all
variables of the product of the dimensions of its shape. -/
def totalNumVars (mdlVars : List (List Nat)) : Nat :=
  (mdlVars.map fun shape => shape.prod).sum

/-- Modelled from the spec: `trainer_lib.replicate_model_state` — in the
replicated (pmap) variant every local device holds a complete copy of the
state, so each variable gains a leading axis of size `deviceCount`. -/
def replicateState (deviceCount : Nat) (st : TrainState) : TrainState :=
  { st with mdlVars := st.mdlVars.map fun shape => deviceCount :: shape }

/-- `jax.tree_map(lambda x: x[0], partitioned_train_state)` in
`_OrbaxPmapTrainingCheckpointer._save`: indexing drops the leading
(device) axis of every variable. -/
def unreplicateState (st : TrainState) : TrainState :=
  { st with mdlVars := st.mdlVars.map List.tail }

/-! ## Checkpoint manager

Modelled from the spec: `checkpoint_managers.OrbaxCheckpointManager` is a
collaborator outside `src/`.  Per spec §4.1 and §8 it records immutable
step-tagged snapshots, `shouldSave(step)` holds iff `step` is a multiple
of `save_interval_steps` — additionally, on a preemption signal the
manager performs the on-demand save that the orchestrator's proactive
exit relies on (spec §4.1: on preemption the orchestrator "forces a final
save") — and `latestStep` is the newest existing checkpoint's step.
Each saved entry records the step, the state handed to the manager and
the `force` flag of the save call. -/
structure CheckpointManager where
  saveIntervalSteps : Nat
  saved : List (Nat × TrainState × Bool)
deriving DecidableEq, Repr

/-- The newest existing checkpoint's step, or `none` when no checkpoint
exists. -/
def CheckpointManager.latestStep (m : CheckpointManager) : Option Nat :=
  (m.saved.map fun e => e.1).max?

/-- `should_save(step)` of the manager; `preempted` is the externally
signalled preemption status of the environment (on-demand save). -/
def CheckpointManager.shouldSave (m : CheckpointManager) (preempted : Bool)
    (step : Nat) : Bool :=
  preempted || step % m.saveIntervalSteps == 0

/-- `save(step, state, force)`: record a snapshot.  The call sites in
`train.py` gate every call on `should_save`/`latest_step`, so the model
records unconditionally. -/
def CheckpointManager.save (m : CheckpointManager) (step : Nat)
    (st : TrainState) (force : Bool) : CheckpointManager :=
  { m with saved := m.saved ++ [(step, st, force)] }

/-- `restore(step, ...)`: the state of the newest snapshot recorded at
`step`, if any. -/
def CheckpointManager.restore (m : CheckpointManager) (step : Nat) :
    Option TrainState :=
  (m.saved.reverse.find? fun e => e.1 == step).map fun e => e.2.1

/-! ## Sharded (pjit) training checkpointer
(`_OrbaxPjitTrainingCheckpointer`, train.py lines 166-266) -/

structure PjitCheckpointer where
  manager : CheckpointManager
  enableCheckpointSaving : Bool
deriving DecidableEq, Repr

/-- `_save_with_args`: a no-op when checkpoint saving is disabled,
otherwise delegates to the manager's save. -/
def PjitCheckpointer.saveWithArgs (c : PjitCheckpointer) (step : Nat)
    (st : TrainState) (force : Bool) : PjitCheckpointer :=
  if !c.enableCheckpointSaving then c
  else { c with manager := c.manager.save step st force }

/-- `save_final`: save (forced) unless a checkpoint at `step` or later
already exists. -/
def PjitCheckpointer.saveFinal (c : PjitCheckpointer) (step : Nat)
    (st : TrainState) : PjitCheckpointer :=
  match c.manager.latestStep with
  | none => c.saveWithArgs step st true
  | some latest => if latest < step then c.saveWithArgs step st true else c

/-- `save_if_needed`: return unless the manager's `should_save` holds,
otherwise save (unforced); `check_for_errors` has no state effect in the
model. -/
def PjitCheckpointer.saveIfNeeded (c : PjitCheckpointer) (preempted : Bool)
    (step : Nat) (st : TrainState) : PjitCheckpointer :=
  if !c.manager.shouldSave preempted step then c
  else c.saveWithArgs step st false

/-- `get_model_states`: restore from the newest checkpoint when one
exists, otherwise use the freshly initialized state (`initState` stands
for `initialize_partitioned_model_states`, a collaborator).  Returns the
state together with `total_num_vars` of its model variables. -/
def PjitCheckpointer.getModelStates (c : PjitCheckpointer)
    (initState : TrainState) : TrainState × Nat :=
  let st :=
    match c.manager.latestStep with
    | none => initState
    | some step => (c.manager.restore step).getD initState
  (st, totalNumVars st.mdlVars)

/-! ## Replicated (pmap) training checkpointer
(`_OrbaxPmapTrainingCheckpointer`, train.py lines 269-377) -/

structure PmapCheckpointer where
  manager : CheckpointManager
  enableCheckpointSaving : Bool
  pmapUseTensorstore : Bool
  localDeviceCount : Nat
deriving DecidableEq, Repr

/-- The form of the state handed to the manager by `_save`: the
tensorstore path converts host-local arrays to global arrays (shape
preserving), the default path unreplicates by indexing device 0. -/
def PmapCheckpointer.savedForm (c : PmapCheckpointer) (st : TrainState) :
    TrainState :=
  if c.pmapUseTensorstore then st else unreplicateState st

/-- `_save(step, state, is_final)`: a no-op when checkpoint saving is
disabled, otherwise saves the (converted or unreplicated) state with
`force = is_final`. -/
def PmapCheckpointer.saveInternal (c : PmapCheckpointer) (step : Nat)
    (st : TrainState) (isFinal : Bool) : PmapCheckpointer :=
  if !c.enableCheckpointSaving then c
  else { c with manager := c.manager.save step (c.savedForm st) isFinal }

/-- `save_if_needed`: return unless `should_save` holds, otherwise
`_save` unforced. -/
def PmapCheckpointer.saveIfNeeded (c : PmapCheckpointer) (preempted : Bool)
    (step : Nat) (st : TrainState) : PmapCheckpointer :=
  if !c.manager.shouldSave preempted step then c
  else c.saveInternal step st false

/-- `save_final`: `_save(..., is_final=True)` unless a checkpoint at
`step` or later already exists. -/
def PmapCheckpointer.saveFinal (c : PmapCheckpointer) (step : Nat)
    (st : TrainState) : PmapCheckpointer :=
  match c.manager.latestStep with
  | none => c.saveInternal step st true
  | some latest => if latest < step then c.saveInternal step st true else c

/-- `get_model_states`: restore the (unreplicated) state from the newest
checkpoint when one exists, otherwise use the freshly initialized state;
replicate it over the local devices, count the parameters of the
replicated state, assert divisibility by the local device count and
return the quotient. -/
def PmapCheckpointer.getModelStates (c : PmapCheckpointer)
    (initState : TrainState) : TrainState × Nat :=
  let trainState :=
    match c.manager.latestStep with
    | none => initState
    | some step => (c.manager.restore step).getD initState
  let partitioned := replicateState c.localDeviceCount trainState
  let totalNumParams := totalNumVars partitioned.mdlVars
  (partitioned, totalNumParams / c.localDeviceCount)

/-! ## Program abstraction (`programs.BaseTrainProgram` as consumed by
the loop: `should_run` and `run`, whose output carries the new state and
the new step counter `aux.new_step_i` / `aux.new_train_step`).  The
metric fields of the program output (`weighted_scalars`,
`steps_per_sec`, `eval_train_metrics`) do not influence the state or the
step counter and are abstracted away. -/

structure ProgramOutput where
  state : TrainState
  newStep : Nat
deriving DecidableEq, Repr

structure TrainProgram where
  shouldRun : TrainState → Nat → Bool
  run : TrainState → Nat → ProgramOutput

/-! ## The training loop (`_train_and_evaluate_common`)

The loop is common to `train.py` (lines 1077-1186) and `executors.py`
(lines 468-607); the `executors.py` variant additionally has the
proactive-preemption exit, controlled by `exitAfterOndemandCheckpoint`
(the `train.py` variant is the special case where that flag is false).
The loop is generic in the checkpointer (the two variants above expose
the identical interface).  Each iteration appends observable events to a
trace; a `saveIfNeeded`/`saveFinal` event records that the corresponding
decision was evaluated with the given step and state (the actual write
is visible in the checkpointer's store). -/

inductive Event where
  | saveIfNeeded (step : Nat) (st : TrainState)
  | trainStep (step : Nat) (newStep : Nat) (newState : TrainState)
  | evalRun (step : Nat) (st : TrainState)
  | decodeRun (step : Nat) (st : TrainState) (useEma : Bool)
  | saveFinal (step : Nat) (st : TrainState)
  | waitUntilFinished
deriving DecidableEq, Repr

inductive StopReason where
  | completed
  | earlyStop
  | preempted
  | fuelExhausted
deriving DecidableEq, Repr

/-- Errors raised by the loop or its setup phase.  `emaUnavailable`
carries the step counter at which the `ValueError` was raised. -/
inductive LoopError where
  | duplicateInputNames
  | emaUnavailable (step : Nat)
deriving DecidableEq, Repr

/-- The configuration and environment consumed by the loop: the train
hyperparameters it reads (`eval_interval_steps`, `decode_interval_steps`,
`decode_use_ema_states`; an interval of 0 models a falsy/absent one), the
input names of the registered eval and decode programs, whether the task
has an EMA state, the externally signalled preemption status, the
proactive-exit flag, and the early-stopping policy (a predicate on the
step counter; its metric arguments are abstracted away). -/
structure LoopConfig where
  evalIntervalSteps : Nat
  decodeIntervalSteps : Nat
  decodeUseEmaStates : Bool
  hasEma : Bool
  evalInputNames : List String
  decodeInputNames : List String
  exitAfterOndemandCheckpoint : Bool
  reachedPreemption : Nat → Bool
  earlyStop : Option (Nat → Bool)

/-- The checkpointer interface the loop consumes, over a checkpointer
state of type `C`. -/
structure CheckpointerOps (C : Type) where
  saveIfNeeded : C → Bool → Nat → TrainState → C
  saveFinal : C → Nat → TrainState → C

def pjitOps : CheckpointerOps PjitCheckpointer where
  saveIfNeeded c p step st := c.saveIfNeeded p step st
  saveFinal c step st := c.saveFinal step st

def pmapOps : CheckpointerOps PmapCheckpointer where
  saveIfNeeded c p step st := c.saveIfNeeded p step st
  saveFinal c step st := c.saveFinal step st

/-- The outcome of the `while` loop: the step counter and state at exit,
the checkpointer state, the trace of events, the stop reason, and the
process exit status. -/
structure LoopResult (C : Type) where
  finalStep : Nat
  finalState : TrainState
  ckpt : C
  trace : List Event
  reason : StopReason
  exitCode : Nat
deriving DecidableEq, Repr

/-- One iteration's events past the checkpoint decision, given the
current step and state: the train step, then the conditional eval run
and the conditional decode run at the post-update step and state. -/
def iterEvents (prog : TrainProgram) (cfg : LoopConfig) (step : Nat)
    (st : TrainState) : List Event :=
  let out := prog.run st step
  let step' := out.newStep
  let st' := out.state
  let evalEvents :=
    if cfg.evalIntervalSteps != 0 && step' % cfg.evalIntervalSteps == 0
        && !cfg.evalInputNames.isEmpty then
      [Event.evalRun step' st']
    else []
  let decodeEvents :=
    if !cfg.decodeInputNames.isEmpty && cfg.decodeIntervalSteps != 0
        && step' % cfg.decodeIntervalSteps == 0 then
      [Event.decodeRun step' st' cfg.decodeUseEmaStates]
    else []
  [Event.saveIfNeeded step st, Event.trainStep step step' st']
    ++ evalEvents ++ decodeEvents

/-- The `while True:` loop, with fuel bounding the number of iterations
(a run that exhausts its fuel stops with reason `fuelExhausted`). -/
def runLoop {C : Type} (ops : CheckpointerOps C) (prog : TrainProgram)
    (cfg : LoopConfig) :
    Nat → Nat → TrainState → C → Except LoopError (LoopResult C)
  | 0, step, st, ckpt => .ok ⟨step, st, ckpt, [], .fuelExhausted, 0⟩
  | fuel + 1, step, st, ckpt =>
    let preempted := cfg.reachedPreemption step
    let ckpt := ops.saveIfNeeded ckpt preempted step st
    if cfg.exitAfterOndemandCheckpoint && preempted then
      .ok ⟨step, st, ckpt,
        [Event.saveIfNeeded step st, Event.waitUntilFinished],
        .preempted, 1⟩
    else if !prog.shouldRun st step then
      .ok ⟨step, st, ckpt, [Event.saveIfNeeded step st], .completed, 0⟩
    else
      let out := prog.run st step
      let step' := out.newStep
      let st' := out.state
      let runDecode :=
        !cfg.decodeInputNames.isEmpty && cfg.decodeIntervalSteps != 0
          && step' % cfg.decodeIntervalSteps == 0
      if runDecode && cfg.decodeUseEmaStates && !cfg.hasEma then
        .error (.emaUnavailable step')
      else
        let stop :=
          match cfg.earlyStop with
          | some policy => policy step'
          | none => false
        if stop then
          .ok ⟨step', st', ckpt, iterEvents prog cfg step st, .earlyStop, 0⟩
        else
          match runLoop ops prog cfg fuel step' st' ckpt with
          | .error e => .error e
          | .ok r =>
            .ok ⟨r.finalStep, r.finalState, r.ckpt,
              iterEvents prog cfg step st ++ r.trace, r.reason, r.exitCode⟩

/-- Modelled from the spec: `trainer_lib.check_unique_names` — a fatal
configuration error when the declared input names are not pairwise
distinct. -/
def hasDuplicateNames : List String → Bool
  | [] => false
  | n :: rest => rest.contains n || hasDuplicateNames rest

/-- `_train_and_evaluate_common`: the setup phase checks the decode input
names (when decode is configured, `partition_decode_once_fns` →
`check_unique_names`) and the eval input names, then runs the loop; on a
normal stop (`completed` or `earlyStop`) it performs the final forced
save and waits for outstanding saves before returning (exit status 0);
the preemption path already performed its drain-and-exit inside the
loop. -/
def trainAndEvaluateCommon {C : Type} (ops : CheckpointerOps C)
    (prog : TrainProgram) (cfg : LoopConfig) (fuel step₀ : Nat)
    (st₀ : TrainState) (ckpt : C) : Except LoopError (LoopResult C) :=
  if !cfg.decodeInputNames.isEmpty && hasDuplicateNames cfg.decodeInputNames
  then .error .duplicateInputNames
  else if hasDuplicateNames cfg.evalInputNames then .error .duplicateInputNames
  else
    match runLoop ops prog cfg fuel step₀ st₀ ckpt with
    | .error e => .error e
    | .ok r =>
      match r.reason with
      | .completed | .earlyStop =>
        .ok ⟨r.finalStep, r.finalState,
          ops.saveFinal r.ckpt r.finalStep r.finalState,
          r.trace ++ [Event.saveFinal r.finalStep r.finalState,
            Event.waitUntilFinished],
          r.reason, 0⟩
      | _ => .ok r

/-! ## The per-iteration orbit of the loop

The loop's step counter and state evolve only through the train
program's output; `iterNext` is that evolution, and `orbitTrace` is the
event trace of `n` full iterations. -/

/-- The next (step, state) pair: exactly the train program's output. -/
def iterNext (prog : TrainProgram) (p : Nat × TrainState) :
    Nat × TrainState :=
  let out := prog.run p.2 p.1
  (out.newStep, out.state)

/-- `n`-fold iteration of `iterNext`. -/
def orbit (prog : TrainProgram) : Nat → Nat × TrainState → Nat × TrainState
  | 0, p => p
  | n + 1, p => orbit prog n (iterNext prog p)

/-- The event trace of `n` full loop iterations from (step, state). -/
def orbitTrace (prog : TrainProgram) (cfg : LoopConfig) :
    Nat → Nat → TrainState → List Event
  | 0, _, _ => []
  | n + 1, step, st =>
    iterEvents prog cfg step st
      ++ orbitTrace prog cfg n (iterNext prog (step, st)).1
        (iterNext prog (step, st)).2

/-- The trailing events of a loop run, by stop reason: a run that stops
with `completed` evaluated one more save decision before breaking; the
preemption exit evaluated the save decision and drained pending saves. -/
def endingEvents (reason : StopReason) (step : Nat) (st : TrainState) :
    List Event :=
  match reason with
  | .completed => [Event.saveIfNeeded step st]
  | .preempted => [Event.saveIfNeeded step st, Event.waitUntilFinished]
  | .earlyStop => []
  | .fuelExhausted => []

/-- The trailing events of a full `trainAndEvaluateCommon` run: the
normal stop reasons additionally perform the final forced save and the
drain of outstanding saves. -/
def finishEvents (reason : StopReason) (step : Nat) (st : TrainState) :
    List Event :=
  match reason with
  | .completed => [Event.saveIfNeeded step st, Event.saveFinal step st,
      Event.waitUntilFinished]
  | .earlyStop => [Event.saveFinal step st, Event.waitUntilFinished]
  | .preempted => [Event.saveIfNeeded step st, Event.waitUntilFinished]
  | .fuelExhausted => []

/-! ## Concrete sample runs used by the witnesses -/

/-- A train program whose `should_run` holds exactly below the horizon
`K` and whose every run advances the step counter by one (the hypotheses
of the spec's loop-termination property). -/
def stepwiseProgram (K : Nat) (f : TrainState → Nat → TrainState) :
    TrainProgram where
  shouldRun _ step := step < K
  run st step := ⟨f st step, step + 1⟩

def sampleState : TrainState := ⟨0, [[2], [3]]⟩

def sampleProg : TrainProgram := stepwiseProgram 2 (fun st _ => st)

def sampleCfg : LoopConfig :=
  ⟨0, 0, false, false, [], [], false, fun _ => false, none⟩

def sampleCkpt : PjitCheckpointer := ⟨⟨2, []⟩, true⟩

def c1RunResult : LoopResult PjitCheckpointer :=
  ⟨2, sampleState,
    ⟨⟨2, [(0, sampleState, false), (2, sampleState, false)]⟩, true⟩,
    [Event.saveIfNeeded 0 sampleState, Event.trainStep 0 1 sampleState,
      Event.saveIfNeeded 1 sampleState, Event.trainStep 1 2 sampleState,
      Event.saveIfNeeded 2 sampleState, Event.saveFinal 2 sampleState,
      Event.waitUntilFinished],
    .completed, 0⟩

/-- The number of train-step invocations recorded in a trace. -/
def countTrainSteps (tr : List Event) : Nat :=
  (tr.filter fun e =>
    match e with
    | .trainStep _ _ _ => true
    | _ => false).length

def c4PjitSample : PjitCheckpointer := ⟨⟨1, [(2, sampleState, false)]⟩, true⟩

def c4PmapSample : PmapCheckpointer := ⟨⟨1, []⟩, true, false, 2⟩

def c10Pjit : PjitCheckpointer := ⟨⟨1, []⟩, true⟩

def c10Pmap : PmapCheckpointer := ⟨⟨1, []⟩, true, false, 2⟩

def c6Cfg : LoopConfig :=
  ⟨0, 1, true, false, [], ["d"], false, fun _ => false, none⟩

def c7DupCfg : LoopConfig :=
  ⟨0, 0, false, false, ["a", "a"], [], false, fun _ => false, none⟩

def c8Cfg : LoopConfig :=
  ⟨0, 0, false, false, [], [], true, fun _ => true, none⟩

/-- Structure of every successful loop run: the final step and state are
the `n`-fold orbit of the train program from the initial pair, and the
trace is the `n` full iteration blocks followed by the ending events of
the stop reason. -/
theorem runLoop_structure {C : Type} (ops : CheckpointerOps C)
    (prog : TrainProgram) (cfg : LoopConfig) (fuel step₀ : Nat)
    (st₀ : TrainState) (ckpt : C) (r : LoopResult C)
    (h : runLoop ops prog cfg fuel step₀ st₀ ckpt = .ok r) :
    ∃ n, (r.finalStep, r.finalState) = orbit prog n (step₀, st₀) ∧
      r.trace = orbitTrace prog cfg n step₀ st₀
        ++ endingEvents r.reason r.finalStep r.finalState := by
  induction fuel generalizing step₀ st₀ ckpt r with
  | zero =>
    simp only [runLoop, Except.ok.injEq] at h
    subst h
    exact ⟨0, rfl, rfl⟩
  | succ fuel ih =>
    simp only [runLoop] at h
    split at h
    · -- proactive preemption exit
      simp only [Except.ok.injEq] at h
      subst h
      exact ⟨0, rfl, rfl⟩
    · split at h
      · -- `should_run` is false: completed
        simp only [Except.ok.injEq] at h
        subst h
        exact ⟨0, rfl, rfl⟩
      · split at h
        · exact absurd h (by simp)
        · split at h
          · -- early stop after a full iteration
            simp only [Except.ok.injEq] at h
            subst h
            refine ⟨1, rfl, ?_⟩
            simp [orbitTrace, iterNext, endingEvents]
          · -- recurse
            split at h
            · exact absurd h (by simp)
            · rename_i r' heq
              simp only [Except.ok.injEq] at h
              subst h
              obtain ⟨n, h1, h2⟩ := ih _ _ _ _ heq
              refine ⟨n + 1, ?_, ?_⟩
              · simpa [orbit, iterNext] using h1
              · simp only [orbitTrace, iterNext, List.append_assoc]
                simp only [h2]

/-- **C1.** In every iteration the checkpoint-save decision is evaluated
before the train step executes; the loop's step counter changes only
through the train program's output (`aux.new_step`); eval and decode
leave the step counter and the `TrainState` unchanged.  Formally: every
successful `_train_and_evaluate_common` run decomposes into `n` iteration
blocks — each block is the save decision evaluated at the pair produced
by the previous train step (or the initial pair), followed by the train
step run at exactly that pair, followed by the optional eval/decode
events at the post-update pair — and the pair after each block is
exactly the train program's output (`orbit`), so a save evaluated at
step N sees the state exactly as produced by step N's train update. -/
theorem paxml_c1_loop_ordering_and_state_invariants {C : Type}
    (ops : CheckpointerOps C) (prog : TrainProgram) (cfg : LoopConfig)
    (fuel step₀ : Nat) (st₀ : TrainState) (ckpt : C) (r : LoopResult C)
    (h : trainAndEvaluateCommon ops prog cfg fuel step₀ st₀ ckpt = .ok r) :
    ∃ n, (r.finalStep, r.finalState) = orbit prog n (step₀, st₀) ∧
      r.trace = orbitTrace prog cfg n step₀ st₀
        ++ finishEvents r.reason r.finalStep r.finalState := by
  simp only [trainAndEvaluateCommon] at h
  split at h
  · exact absurd h (by simp)
  · split at h
    · exact absurd h (by simp)
    · split at h
      · exact absurd h (by simp)
      · rename_i r' heq
        obtain ⟨n, h1, h2⟩ := runLoop_structure _ _ _ _ _ _ _ _ heq
        cases hr : r'.reason
        case completed =>
          rw [hr] at h
          simp only [Except.ok.injEq] at h
          subst h
          refine ⟨n, by simpa using h1, ?_⟩
          simp [h2, hr, endingEvents, finishEvents]
        case earlyStop =>
          rw [hr] at h
          simp only [Except.ok.injEq] at h
          subst h
          refine ⟨n, by simpa using h1, ?_⟩
          simp [h2, hr, endingEvents, finishEvents]
        case preempted =>
          rw [hr] at h
          simp only [Except.ok.injEq] at h
          subst h
          exact ⟨n, h1, by rw [h2, hr]; rfl⟩
        case fuelExhausted =>
          rw [hr] at h
          simp only [Except.ok.injEq] at h
          subst h
          exact ⟨n, h1, by rw [h2, hr]; rfl⟩

/-- Witness for C1 at a concrete two-step run. -/
theorem paxml_c1_witness :
    ∃ n, (c1RunResult.finalStep, c1RunResult.finalState)
        = orbit sampleProg n (0, sampleState) ∧
      c1RunResult.trace = orbitTrace sampleProg sampleCfg n 0 sampleState
        ++ finishEvents c1RunResult.reason c1RunResult.finalStep
          c1RunResult.finalState :=
  paxml_c1_loop_ordering_and_state_invariants pjitOps sampleProg sampleCfg
    5 0 sampleState sampleCkpt c1RunResult rfl

/-! ## C2: loop termination -/

theorem countTrainSteps_append (a b : List Event) :
    countTrainSteps (a ++ b) = countTrainSteps a + countTrainSteps b := by
  simp [countTrainSteps, List.filter_append]

theorem countTrainSteps_iterEvents (prog : TrainProgram) (cfg : LoopConfig)
    (step : Nat) (st : TrainState) :
    countTrainSteps (iterEvents prog cfg step st) = 1 := by
  simp only [iterEvents]
  rw [countTrainSteps_append, countTrainSteps_append]
  split <;> split <;> simp [countTrainSteps]

theorem hasDuplicateNames_eq_false {l : List String} (h : l.Nodup) :
    hasDuplicateNames l = false := by
  induction l with
  | nil => rfl
  | cons a t ih =>
    rw [List.nodup_cons] at h
    simp [hasDuplicateNames, ih h.2]
    simpa using h.1

/-- Every successful run of the loop with a stepwise program, no
early-stopping policy and no proactive-preemption exit performs exactly
`K - s` train steps and stops with reason `completed`, provided the fuel
covers the remaining steps and decode-with-EMA is not misconfigured. -/
theorem runLoop_stepwise_completes {C : Type} (ops : CheckpointerOps C)
    (K : Nat) (f : TrainState → Nat → TrainState) (cfg : LoopConfig)
    (hpre : cfg.exitAfterOndemandCheckpoint = false)
    (hstop : cfg.earlyStop = none)
    (hema : cfg.decodeUseEmaStates = false ∨ cfg.hasEma = true) :
    ∀ fuel s : Nat, ∀ st : TrainState, ∀ ckpt : C, K - s < fuel →
      ∃ r : LoopResult C,
        runLoop ops (stepwiseProgram K f) cfg fuel s st ckpt = .ok r ∧
          r.reason = .completed ∧ countTrainSteps r.trace = K - s ∧
          r.exitCode = 0 := by
  intro fuel
  induction fuel with
  | zero => intro s st ckpt hfuel; omega
  | succ fuel ih =>
    intro s st ckpt hfuel
    by_cases hs : s < K
    · obtain ⟨r, hr, hreason, hcount, hexit⟩ :=
        ih (s + 1) (f st s)
          (ops.saveIfNeeded ckpt (cfg.reachedPreemption s) s st)
          (by omega)
      refine ⟨⟨r.finalStep, r.finalState, r.ckpt,
        iterEvents (stepwiseProgram K f) cfg s st ++ r.trace,
        r.reason, r.exitCode⟩, ?_, hreason, ?_, hexit⟩
      · have hr' := hr
        simp only [stepwiseProgram] at hr'
        rcases hema with h | h <;>
          simp [runLoop, stepwiseProgram, hpre, hstop, hs, h, hr']
      · rw [countTrainSteps_append, countTrainSteps_iterEvents, hcount]
        omega
    · refine ⟨⟨s, st, ops.saveIfNeeded ckpt (cfg.reachedPreemption s) s st,
        [Event.saveIfNeeded s st], .completed, 0⟩, ?_, rfl, ?_, rfl⟩
      · rw [runLoop]
        simp only [hpre, Bool.false_and, if_false]
        simp [stepwiseProgram, hs]
      · simp [countTrainSteps]
        omega

/-- **C2.** With `num_train_steps = K`, no early-stopping policy, a train
program whose `shouldRun(state, step)` holds exactly when `step < K` and
whose every run returns `new_step = step + 1`, the orchestrator performs
exactly `K - initial_step` train-step invocations, terminates with reason
`completed`, and then performs one final forced save (`saveFinal`) and
`waitUntilFinished` before returning (exit status 0).  The side
conditions require a configuration that raises no setup error (distinct
input names, EMA available when requested). -/
theorem paxml_c2_loop_termination {C : Type} (ops : CheckpointerOps C)
    (K : Nat) (f : TrainState → Nat → TrainState) (cfg : LoopConfig)
    (fuel step₀ : Nat) (st₀ : TrainState) (ckpt : C)
    (hpre : cfg.exitAfterOndemandCheckpoint = false)
    (hstop : cfg.earlyStop = none)
    (hema : cfg.decodeUseEmaStates = false ∨ cfg.hasEma = true)
    (hdec : cfg.decodeInputNames.Nodup) (hev : cfg.evalInputNames.Nodup)
    (hfuel : K - step₀ < fuel) :
    ∃ r : LoopResult C,
      trainAndEvaluateCommon ops (stepwiseProgram K f) cfg fuel step₀ st₀
          ckpt = .ok r ∧
        r.reason = .completed ∧ countTrainSteps r.trace = K - step₀ ∧
        r.exitCode = 0 ∧
        ∃ pre, r.trace = pre ++ [Event.saveFinal r.finalStep r.finalState,
          Event.waitUntilFinished] := by
  obtain ⟨r, hr, hreason, hcount, hexit⟩ :=
    runLoop_stepwise_completes ops K f cfg hpre hstop hema fuel step₀ st₀
      ckpt hfuel
  refine ⟨⟨r.finalStep, r.finalState,
    ops.saveFinal r.ckpt r.finalStep r.finalState,
    r.trace ++ [Event.saveFinal r.finalStep r.finalState,
      Event.waitUntilFinished], r.reason, 0⟩, ?_, hreason, ?_, rfl,
    ⟨r.trace, rfl⟩⟩
  · rw [trainAndEvaluateCommon]
    simp only [hasDuplicateNames_eq_false hdec, hasDuplicateNames_eq_false
      hev, Bool.and_false, if_false, hr, hreason]
    rfl
  · rw [countTrainSteps_append, hcount]
    simp [countTrainSteps]

/-- Witness for C2: the concrete two-step run from step 0. -/
theorem paxml_c2_witness :
    ∃ r : LoopResult PjitCheckpointer,
      trainAndEvaluateCommon pjitOps (stepwiseProgram 2 fun st _ => st)
          sampleCfg 5 0 sampleState sampleCkpt = .ok r ∧
        r.reason = .completed ∧ countTrainSteps r.trace = 2 - 0 ∧
        r.exitCode = 0 ∧
        ∃ pre, r.trace = pre ++ [Event.saveFinal r.finalStep r.finalState,
          Event.waitUntilFinished] :=
  paxml_c2_loop_termination pjitOps 2 (fun st _ => st) sampleCfg 5 0
    sampleState sampleCkpt rfl rfl (Or.inl rfl) List.nodup_nil
    List.nodup_nil (by omega)

/-! ## C3: early stop on first invocation -/

/-- **C3.** With an early-stopping policy that returns true on its first
invocation, the loop stops after exactly one train-step invocation with
reason `earlyStop`, and a final forced checkpoint is taken at the step
produced by that single train step (`saveFinal` records it with
`force = true`), followed by `waitUntilFinished`.  Stated for the
sharded (pjit) checkpointer with saving enabled, starting from an empty
checkpoint directory. -/
theorem paxml_c3_early_stop_after_one_step (K : Nat)
    (f : TrainState → Nat → TrainState) (cfg : LoopConfig)
    (fuel step₀ interval : Nat) (st₀ : TrainState) (policy : Nat → Bool)
    (hstop : cfg.earlyStop = some policy)
    (hfirst : policy (step₀ + 1) = true)
    (hs : step₀ < K)
    (hpre : cfg.exitAfterOndemandCheckpoint = false)
    (hema : cfg.decodeUseEmaStates = false ∨ cfg.hasEma = true)
    (hdec : cfg.decodeInputNames.Nodup) (hev : cfg.evalInputNames.Nodup)
    (hfuel : 0 < fuel) :
    ∃ r : LoopResult PjitCheckpointer,
      trainAndEvaluateCommon pjitOps (stepwiseProgram K f) cfg fuel step₀
          st₀ ⟨⟨interval, []⟩, true⟩ = .ok r ∧
        r.reason = .earlyStop ∧
        countTrainSteps r.trace = 1 ∧
        r.finalStep = step₀ + 1 ∧ r.finalState = f st₀ step₀ ∧
        (step₀ + 1, f st₀ step₀, true) ∈ r.ckpt.manager.saved ∧
        r.exitCode = 0 ∧
        ∃ pre, r.trace = pre ++ [Event.saveFinal (step₀ + 1) (f st₀ step₀),
          Event.waitUntilFinished] := by
  obtain ⟨n, rfl⟩ : ∃ n, fuel = n + 1 := ⟨fuel - 1, by omega⟩
  have hloop : runLoop pjitOps (stepwiseProgram K f) cfg (n + 1) step₀ st₀
      ⟨⟨interval, []⟩, true⟩ =
      .ok ⟨step₀ + 1, f st₀ step₀,
        pjitOps.saveIfNeeded ⟨⟨interval, []⟩, true⟩
          (cfg.reachedPreemption step₀) step₀ st₀,
        iterEvents (stepwiseProgram K f) cfg step₀ st₀, .earlyStop, 0⟩ := by
    rcases hema with h | h <;>
      simp [runLoop, stepwiseProgram, hpre, hstop, hs, h, hfirst, iterEvents]
  refine ⟨⟨step₀ + 1, f st₀ step₀,
    PjitCheckpointer.saveFinal
      (pjitOps.saveIfNeeded ⟨⟨interval, []⟩, true⟩
        (cfg.reachedPreemption step₀) step₀ st₀) (step₀ + 1) (f st₀ step₀),
    iterEvents (stepwiseProgram K f) cfg step₀ st₀
      ++ [Event.saveFinal (step₀ + 1) (f st₀ step₀),
        Event.waitUntilFinished], .earlyStop, 0⟩, ?_, rfl, ?_, rfl, rfl,
    ?_, rfl, ⟨_, rfl⟩⟩
  · simp [trainAndEvaluateCommon, hasDuplicateNames_eq_false hdec,
      hasDuplicateNames_eq_false hev, hloop]
    rfl
  · rw [countTrainSteps_append, countTrainSteps_iterEvents]
    simp [countTrainSteps]
  · by_cases hmod : step₀ % interval = 0 <;>
      cases hb : cfg.reachedPreemption step₀ <;>
      simp [pjitOps, PjitCheckpointer.saveIfNeeded,
        CheckpointManager.shouldSave, hb, hmod,
        PjitCheckpointer.saveWithArgs, CheckpointManager.save,
        PjitCheckpointer.saveFinal, CheckpointManager.latestStep,
        List.max?, List.foldl, Nat.lt_succ_self]

/-- Witness for C3: a constant-true policy at a concrete run. -/
theorem paxml_c3_witness :
    ∃ r : LoopResult PjitCheckpointer,
      trainAndEvaluateCommon pjitOps (stepwiseProgram 4 fun st _ => st)
          ⟨0, 0, false, false, [], [], false, fun _ => false,
            some fun _ => true⟩ 3 0 sampleState ⟨⟨2, []⟩, true⟩ = .ok r ∧
        r.reason = .earlyStop ∧
        countTrainSteps r.trace = 1 ∧
        r.finalStep = 0 + 1 ∧ r.finalState = sampleState ∧
        (0 + 1, sampleState, true) ∈ r.ckpt.manager.saved ∧
        r.exitCode = 0 ∧
        ∃ pre, r.trace = pre ++ [Event.saveFinal (0 + 1) sampleState,
          Event.waitUntilFinished] :=
  paxml_c3_early_stop_after_one_step 4 (fun st _ => st)
    ⟨0, 0, false, false, [], [], false, fun _ => false, some fun _ => true⟩
    3 0 2 sampleState (fun _ => true) rfl rfl (by omega) rfl (Or.inl rfl)
    List.nodup_nil List.nodup_nil (by omega)

/-! ## C4: `save_final` saves iff no checkpoint at `step` or later exists -/

theorem append_singleton_ne {α : Type} (l : List α) (x : α) :
    l ++ [x] ≠ l := by
  intro h
  have := congrArg List.length h
  simp at this

/-- **C4.** For every step `N`, `save_final(N, state)` performs a (forced)
save if and only if no checkpoint exists yet or the newest existing
checkpoint's step is strictly less than `N`; when a checkpoint at step
`N` or later exists it performs no save.  Holds for both the sharded
(pjit) and replicated (pmap) checkpointer variants, with checkpoint
saving enabled. -/
theorem paxml_c4_save_final_iff (c : PjitCheckpointer) (d : PmapCheckpointer)
    (step : Nat) (st : TrainState)
    (hc : c.enableCheckpointSaving = true)
    (hd : d.enableCheckpointSaving = true) :
    ((c.saveFinal step st).manager.saved ≠ c.manager.saved ↔
      c.manager.latestStep = none ∨
        ∃ l, c.manager.latestStep = some l ∧ l < step) ∧
    ((c.saveFinal step st).manager.saved = c.manager.saved ∨
      (c.saveFinal step st).manager.saved
        = c.manager.saved ++ [(step, st, true)]) ∧
    ((d.saveFinal step st).manager.saved ≠ d.manager.saved ↔
      d.manager.latestStep = none ∨
        ∃ l, d.manager.latestStep = some l ∧ l < step) ∧
    ((d.saveFinal step st).manager.saved = d.manager.saved ∨
      (d.saveFinal step st).manager.saved
        = d.manager.saved ++ [(step, d.savedForm st, true)]) := by
  refine ⟨?_, ?_, ?_, ?_⟩
  · cases hmax : c.manager.latestStep with
    | none =>
      simp [PjitCheckpointer.saveFinal, hmax, PjitCheckpointer.saveWithArgs,
        hc, CheckpointManager.save, append_singleton_ne]
    | some l =>
      by_cases hl : l < step <;>
        simp [PjitCheckpointer.saveFinal, hmax,
          PjitCheckpointer.saveWithArgs, hc, CheckpointManager.save,
          append_singleton_ne, hl]
  · cases hmax : c.manager.latestStep with
    | none =>
      simp [PjitCheckpointer.saveFinal, hmax, PjitCheckpointer.saveWithArgs,
        hc, CheckpointManager.save]
    | some l =>
      by_cases hl : l < step <;>
        simp [PjitCheckpointer.saveFinal, hmax,
          PjitCheckpointer.saveWithArgs, hc, CheckpointManager.save, hl]
  · cases hmax : d.manager.latestStep with
    | none =>
      simp [PmapCheckpointer.saveFinal, hmax, PmapCheckpointer.saveInternal,
        hd, CheckpointManager.save, append_singleton_ne]
    | some l =>
      by_cases hl : l < step <;>
        simp [PmapCheckpointer.saveFinal, hmax,
          PmapCheckpointer.saveInternal, hd, CheckpointManager.save,
          append_singleton_ne, hl]
  · cases hmax : d.manager.latestStep with
    | none =>
      simp [PmapCheckpointer.saveFinal, hmax, PmapCheckpointer.saveInternal,
        hd, CheckpointManager.save]
    | some l =>
      by_cases hl : l < step <;>
        simp [PmapCheckpointer.saveFinal, hmax,
          PmapCheckpointer.saveInternal, hd, CheckpointManager.save, hl]

/-- Witness for C4 at concrete checkpointers (one with an existing
checkpoint at step 2, one empty) and step 3. -/
theorem paxml_c4_witness :
    ((c4PjitSample.saveFinal 3 sampleState).manager.saved
        ≠ c4PjitSample.manager.saved ↔
      c4PjitSample.manager.latestStep = none ∨
        ∃ l, c4PjitSample.manager.latestStep = some l ∧ l < 3) ∧
    ((c4PjitSample.saveFinal 3 sampleState).manager.saved
        = c4PjitSample.manager.saved ∨
      (c4PjitSample.saveFinal 3 sampleState).manager.saved
        = c4PjitSample.manager.saved ++ [(3, sampleState, true)]) ∧
    ((c4PmapSample.saveFinal 3 sampleState).manager.saved
        ≠ c4PmapSample.manager.saved ↔
      c4PmapSample.manager.latestStep = none ∨
        ∃ l, c4PmapSample.manager.latestStep = some l ∧ l < 3) ∧
    ((c4PmapSample.saveFinal 3 sampleState).manager.saved
        = c4PmapSample.manager.saved ∨
      (c4PmapSample.saveFinal 3 sampleState).manager.saved
        = c4PmapSample.manager.saved
          ++ [(3, c4PmapSample.savedForm sampleState, true)]) :=
  paxml_c4_save_final_iff c4PjitSample c4PmapSample 3 sampleState rfl rfl

/-! ## C9: disabled checkpoint saving -/

/-- **C9.** When `enable_checkpoint_saving` is false, `save_if_needed`
and `save_final` are no-ops in both checkpointer variants (the
checkpointer — and hence the set of existing checkpoints — is left
unchanged), while `get_model_states` computes exactly the same result as
with saving enabled. -/
theorem paxml_c9_disabled_saving_noop (m md : CheckpointManager) (ts : Bool)
    (dcount : Nat) (p : Bool) (step : Nat) (st init : TrainState) :
    (PjitCheckpointer.mk m false).saveIfNeeded p step st
        = PjitCheckpointer.mk m false ∧
    (PjitCheckpointer.mk m false).saveFinal step st
        = PjitCheckpointer.mk m false ∧
    (PmapCheckpointer.mk md false ts dcount).saveIfNeeded p step st
        = PmapCheckpointer.mk md false ts dcount ∧
    (PmapCheckpointer.mk md false ts dcount).saveFinal step st
        = PmapCheckpointer.mk md false ts dcount ∧
    (PjitCheckpointer.mk m false).getModelStates init
        = (PjitCheckpointer.mk m true).getModelStates init ∧
    (PmapCheckpointer.mk md false ts dcount).getModelStates init
        = (PmapCheckpointer.mk md true ts dcount).getModelStates init := by
  refine ⟨?_, ?_, ?_, ?_, rfl, rfl⟩
  · simp [PjitCheckpointer.saveIfNeeded, PjitCheckpointer.saveWithArgs]
  · cases hmax : m.latestStep <;>
      simp [PjitCheckpointer.saveFinal, hmax, PjitCheckpointer.saveWithArgs]
  · simp [PmapCheckpointer.saveIfNeeded, PmapCheckpointer.saveInternal]
  · cases hmax : md.latestStep <;>
      simp [PmapCheckpointer.saveFinal, hmax, PmapCheckpointer.saveInternal]

/-! ## C10: parameter counts reported by the two variants -/

/-- **C10 counterexample.** The claim asserts that the two variants "do
not report the same parameter-count value for an identical model"; at an
identical cold-start model with variable shapes `[[2], [3]]` (5
parameters) and 2 local devices, the pmap variant reports
`(2·2 + 2·3) / 2 = 5` and the pjit variant reports `2 + 3 = 5` — the
same value. -/
theorem paxml_c10_counterexample :
    (c10Pmap.getModelStates sampleState).2
      = (c10Pjit.getModelStates sampleState).2 := rfl

theorem totalNumVars_replicate (D : Nat) (st : TrainState) :
    totalNumVars (replicateState D st).mdlVars
      = D * totalNumVars st.mdlVars := by
  simp only [totalNumVars, replicateState, List.map_map]
  induction st.mdlVars with
  | nil => simp
  | cons a t ih => simp [ih, Function.comp]; ring

/-- **C10 amended.** The pmap variant counts the *device-replicated*
state: its total is `local_device_count` times the per-model count, so
the divisibility assert always holds and the division returns exactly
the per-model count — which is the same value the pjit variant reports
undivided for an identical model (cold start from the same initial
state). -/
theorem paxml_c10_amended (m md : CheckpointManager) (ts : Bool) (D : Nat)
    (init : TrainState) (hD : 0 < D)
    (hm : m.latestStep = none) (hmd : md.latestStep = none) :
    totalNumVars ((PmapCheckpointer.mk md true ts D).getModelStates
        init).1.mdlVars = D * totalNumVars init.mdlVars ∧
    totalNumVars (replicateState D init).mdlVars % D = 0 ∧
    ((PmapCheckpointer.mk md true ts D).getModelStates init).2
      = ((PjitCheckpointer.mk m true).getModelStates init).2 := by
  refine ⟨?_, ?_, ?_⟩
  · simp [PmapCheckpointer.getModelStates, hmd, totalNumVars_replicate]
  · simp [totalNumVars_replicate, Nat.mul_mod_right]
  · simp [PmapCheckpointer.getModelStates, PjitCheckpointer.getModelStates,
      hmd, hm, totalNumVars_replicate, Nat.mul_div_cancel_left _ hD]

/-- Witness for the amended C10 at two devices and the sample model. -/
theorem paxml_c10_witness :
    totalNumVars ((PmapCheckpointer.mk ⟨1, []⟩ true false 2).getModelStates
        sampleState).1.mdlVars = 2 * totalNumVars sampleState.mdlVars ∧
    totalNumVars (replicateState 2 sampleState).mdlVars % 2 = 0 ∧
    ((PmapCheckpointer.mk ⟨1, []⟩ true false 2).getModelStates
        sampleState).2
      = ((PjitCheckpointer.mk ⟨1, []⟩ true).getModelStates sampleState).2 :=
  paxml_c10_amended ⟨1, []⟩ ⟨1, []⟩ false 2 sampleState (by omega) rfl rfl

/-! ## C5: the duration parser -/

theorem takeWhile_append_of_all {α : Type} (p : α → Bool) {l₁ : List α}
    (l₂ : List α) (h : ∀ a ∈ l₁, p a = true) :
    (l₁ ++ l₂).takeWhile p = l₁ ++ l₂.takeWhile p := by
  induction l₁ with
  | nil => simp
  | cons a t ih =>
    have ha : p a = true := h a (List.mem_cons_self a t)
    simp [List.takeWhile_cons, ha,
      ih fun x hx => h x (List.mem_cons_of_mem a hx)]

theorem dropWhile_append_of_all {α : Type} (p : α → Bool) {l₁ : List α}
    (l₂ : List α) (h : ∀ a ∈ l₁, p a = true) :
    (l₁ ++ l₂).dropWhile p = l₂.dropWhile p := by
  induction l₁ with
  | nil => simp
  | cons a t ih =>
    have ha : p a = true := h a (List.mem_cons_self a t)
    simp [List.dropWhile_cons, ha,
      ih fun x hx => h x (List.mem_cons_of_mem a hx)]

theorem takeWhile_of_all {α : Type} (p : α → Bool) {l : List α}
    (h : ∀ a ∈ l, p a = true) : l.takeWhile p = l := by
  have := takeWhile_append_of_all p ([] : List α) h
  simpa using this

/-- An input that does not start with a digit raises a `ValueError`. -/
theorem parseDurationChars_nondigit_head (c : Char) (cs : List Char)
    (h : isDigitChar c = false) : parseDurationChars (c :: cs) = .error () := by
  simp [parseDurationChars, List.takeWhile_cons, h]

/-- An input of the form digit-run ++ word-run whose word-run's last
character is not one of `s`, `m`, `h`, `d` raises a `ValueError`. -/
theorem parseDurationChars_bad_suffix (ds : List Char) (w c : Char)
    (ws : List Char) (hds : ds ≠ []) (hd : ∀ d ∈ ds, isDigitChar d = true)
    (hw : isDigitChar w = false) (hword : ∀ a ∈ w :: ws, isWordChar a = true)
    (hlast : (w :: ws).getLast? = some c)
    (hs : c ≠ 's') (hm : c ≠ 'm') (hh : c ≠ 'h') (hd' : c ≠ 'd') :
    parseDurationChars (ds ++ w :: ws) = .error () := by
  obtain ⟨d0, ds', rfl⟩ := List.exists_cons_of_ne_nil hds
  have htake : ((d0 :: ds') ++ w :: ws).takeWhile isDigitChar
      = d0 :: ds' := by
    rw [takeWhile_append_of_all _ _ hd]
    simp [List.takeWhile_cons, hw]
  have hdrop : ((d0 :: ds') ++ w :: ws).dropWhile isDigitChar = w :: ws := by
    rw [dropWhile_append_of_all _ _ hd]
    simp [List.dropWhile_cons, hw]
  simp only [List.cons_append, parseDurationChars] at *
  rw [htake, hdrop, takeWhile_of_all _ hword, hlast]
  simp [hs, hm, hh, hd']

/-- **C5 counterexample.** The claim asserts a parse error for every
input whose suffix is not one of `s`, `m`, `h`, `d` (or absent); but the
regex match stops at the first non-word character, so `"45!"` — whose
suffix `!` is none of these — parses successfully as 45 seconds. -/
theorem paxml_c5_counterexample :
    parseDuration (some "45!") = .ok (some 45) := rfl

theorem isWordChar_of_isDigitChar {c : Char} (h : isDigitChar c = true) :
    isWordChar c = true := by
  simp only [isDigitChar] at h
  simp [isWordChar, Char.isAlphanum, h]

theorem not_isDigitChar_of_not_isWordChar {c : Char}
    (h : isWordChar c = false) : isDigitChar c = false := by
  cases hd : isDigitChar c
  · rfl
  · rw [isWordChar_of_isDigitChar hd] at h
    simp at h

theorem dropWhile_head_not {α : Type} (p : α → Bool) :
    ∀ l : List α, ∀ a, (l.dropWhile p).head? = some a → p a = false := by
  intro l
  induction l with
  | nil => intro a h; simp at h
  | cons x t ih =>
    intro a h
    rw [List.dropWhile_cons] at h
    by_cases hx : p x = true
    · rw [if_pos hx] at h
      exact ih a h
    · rw [if_neg hx] at h
      simp only [List.head?_cons, Option.some.injEq] at h
      subst h
      simp only [Bool.not_eq_true] at hx
      exact hx

theorem head?_of_head?_takeWhile {α : Type} (p : α → Bool) (l : List α)
    (a : α) (h : (l.takeWhile p).head? = some a) : l.head? = some a := by
  cases l with
  | nil => simp at h
  | cons x t =>
    rw [List.takeWhile_cons] at h
    by_cases hx : p x = true
    · rw [if_pos hx] at h
      simp only [List.head?_cons, Option.some.injEq] at h
      subst h
      rfl
    · rw [if_neg hx] at h
      simp at h

/-- Every input decomposes as a (possibly empty) leading digit run,
followed by the maximal word-character run, followed by the rest of the
input, which starts with a non-word character if nonempty.  This is the
decomposition the regex `(\d+)(\w)*` induces on arbitrary inputs. -/
theorem exists_digit_word_decomposition (cs : List Char) :
    ∃ ds ws tl : List Char, cs = ds ++ (ws ++ tl) ∧
      (∀ d ∈ ds, isDigitChar d = true) ∧
      (∀ w ∈ ws, isWordChar w = true) ∧
      (∀ w, ws.head? = some w → isDigitChar w = false) ∧
      (∀ t, tl.head? = some t → isWordChar t = false) := by
  refine ⟨cs.takeWhile isDigitChar,
    (cs.dropWhile isDigitChar).takeWhile isWordChar,
    (cs.dropWhile isDigitChar).dropWhile isWordChar, ?_, ?_, ?_, ?_, ?_⟩
  · rw [List.takeWhile_append_dropWhile, List.takeWhile_append_dropWhile]
  · intro d hd
    exact List.mem_takeWhile_imp hd
  · intro w hw
    exact List.mem_takeWhile_imp hw
  · intro w hw
    exact dropWhile_head_not isDigitChar cs w
      (head?_of_head?_takeWhile _ _ _ hw)
  · intro t ht
    exact dropWhile_head_not isWordChar _ t ht

/-- Complete characterization of the parse errors, over the regex-induced
decomposition of an arbitrary input: a `ValueError` is raised iff the
input is nonempty and either does not start with a digit or its maximal
word-character run after the leading digits ends in a character other
than `s`, `m`, `h`, `d`. -/
theorem parseDurationChars_error_iff (ds ws tl : List Char)
    (hds : ∀ d ∈ ds, isDigitChar d = true)
    (hws : ∀ w ∈ ws, isWordChar w = true)
    (hwhead : ∀ w, ws.head? = some w → isDigitChar w = false)
    (hthead : ∀ t, tl.head? = some t → isWordChar t = false) :
    parseDurationChars (ds ++ (ws ++ tl)) = .error () ↔
      (ds ++ (ws ++ tl) ≠ [] ∧ (ds = [] ∨ ∃ c, ws.getLast? = some c ∧
        c ≠ 's' ∧ c ≠ 'm' ∧ c ≠ 'h' ∧ c ≠ 'd')) := by
  cases ds with
  | nil =>
    simp only [List.nil_append]
    cases ws with
    | nil =>
      simp only [List.nil_append]
      cases tl with
      | nil => simp [parseDurationChars]
      | cons t tl' =>
        have htd : isDigitChar t = false :=
          not_isDigitChar_of_not_isWordChar (hthead t rfl)
        simp [parseDurationChars, List.takeWhile_cons, htd]
    | cons w ws' =>
      have hwd : isDigitChar w = false := hwhead w rfl
      simp [parseDurationChars, List.cons_append, List.takeWhile_cons, hwd]
  | cons d ds' =>
    have hsub1 : (ws ++ tl).takeWhile isDigitChar = [] := by
      cases ws with
      | nil =>
        simp only [List.nil_append]
        cases tl with
        | nil => rfl
        | cons t tl' =>
          have htd : isDigitChar t = false :=
            not_isDigitChar_of_not_isWordChar (hthead t rfl)
          simp [List.takeWhile_cons, htd]
      | cons w ws' =>
        have hwd : isDigitChar w = false := hwhead w rfl
        simp [List.cons_append, List.takeWhile_cons, hwd]
    have hsub2 : (ws ++ tl).dropWhile isDigitChar = ws ++ tl := by
      cases ws with
      | nil =>
        simp only [List.nil_append]
        cases tl with
        | nil => rfl
        | cons t tl' =>
          have htd : isDigitChar t = false :=
            not_isDigitChar_of_not_isWordChar (hthead t rfl)
          simp [List.dropWhile_cons, htd]
      | cons w ws' =>
        have hwd : isDigitChar w = false := hwhead w rfl
        simp [List.cons_append, List.dropWhile_cons, hwd]
    have h3 : tl.takeWhile isWordChar = [] := by
      cases tl with
      | nil => rfl
      | cons t tl' => simp [List.takeWhile_cons, hthead t rfl]
    have h1 : (d :: (ds' ++ (ws ++ tl))).takeWhile isDigitChar
        = d :: ds' := by
      rw [← List.cons_append, takeWhile_append_of_all _ _ hds, hsub1,
        List.append_nil]
    have h2 : (d :: (ds' ++ (ws ++ tl))).dropWhile isDigitChar
        = ws ++ tl := by
      rw [← List.cons_append, dropWhile_append_of_all _ _ hds, hsub2]
    have h4 : (ws ++ tl).takeWhile isWordChar = ws := by
      rw [takeWhile_append_of_all _ _ hws, h3, List.append_nil]
    simp only [List.cons_append, parseDurationChars]
    rw [h1, h2, h4]
    cases hlast : ws.getLast? with
    | none => simp [hlast]
    | some c =>
      by_cases hcs' : c = 's'
      · subst hcs'
        simp [hlast]
      · by_cases hcm : c = 'm'
        · subst hcm
          simp [hlast]
        · by_cases hch : c = 'h'
          · subst hch
            simp [hlast]
          · by_cases hcd : c = 'd'
            · subst hcd
              simp [hlast]
            · simp [hlast, hcs', hcm, hch, hcd]

/-- **C5 amended.** The enumerated mappings hold (`""`/`None` → no
interval, `"45"` → 45 s, `"45s"` → 45 s, `"10m"` → 600 s, `"3h"` →
10800 s, `"2d"` → 172800 s), and a parse error is raised exactly for
nonempty inputs that do not start with a digit or whose maximal
word-character run after the leading digits ends in a character other
than `s`, `m`, `h`, `d`: every input decomposes as digit run ++ maximal
word run ++ rest (rest starting with a non-word character), and on that
decomposition the parse errors iff the input is nonempty and (the digit
run is empty or the word run's last character is not one of
`s`/`m`/`h`/`d`).  Characters from the first non-word character onward
are ignored, so `"45!"` parses as 45 seconds rather than erroring. -/
theorem paxml_c5_duration_grammar :
    parseDuration none = .ok none ∧
    parseDuration (some "") = .ok none ∧
    parseDuration (some "45") = .ok (some 45) ∧
    parseDuration (some "45s") = .ok (some 45) ∧
    parseDuration (some "10m") = .ok (some 600) ∧
    parseDuration (some "3h") = .ok (some 10800) ∧
    parseDuration (some "2d") = .ok (some 172800) ∧
    parseDuration (some "45!") = .ok (some 45) ∧
    (∀ cs : List Char, ∃ ds ws tl : List Char, cs = ds ++ (ws ++ tl) ∧
      (∀ d ∈ ds, isDigitChar d = true) ∧
      (∀ w ∈ ws, isWordChar w = true) ∧
      (∀ w, ws.head? = some w → isDigitChar w = false) ∧
      (∀ t, tl.head? = some t → isWordChar t = false)) ∧
    (∀ ds ws tl : List Char, (∀ d ∈ ds, isDigitChar d = true) →
      (∀ w ∈ ws, isWordChar w = true) →
      (∀ w, ws.head? = some w → isDigitChar w = false) →
      (∀ t, tl.head? = some t → isWordChar t = false) →
      (parseDurationChars (ds ++ (ws ++ tl)) = .error () ↔
        (ds ++ (ws ++ tl) ≠ [] ∧ (ds = [] ∨ ∃ c, ws.getLast? = some c ∧
          c ≠ 's' ∧ c ≠ 'm' ∧ c ≠ 'h' ∧ c ≠ 'd')))) :=
  ⟨rfl, rfl, rfl, rfl, rfl, rfl, rfl, rfl,
    exists_digit_word_decomposition, parseDurationChars_error_iff⟩

/-- Witness for C5's universally quantified clauses: the decomposition
at `"x4"`, and both directions of the error characterization — the
error on `"45q!"` (word run ends in `q`) and the absence of an error on
`"45s!"` (word run ends in `s`). -/
theorem paxml_c5_witness :
    (∃ ds ws tl : List Char, ['x', '4'] = ds ++ (ws ++ tl) ∧
      (∀ d ∈ ds, isDigitChar d = true) ∧
      (∀ w ∈ ws, isWordChar w = true) ∧
      (∀ w, ws.head? = some w → isDigitChar w = false) ∧
      (∀ t, tl.head? = some t → isWordChar t = false)) ∧
    parseDurationChars ['4', '5', 'q', '!'] = .error () ∧
    parseDurationChars ['4', '5', 's', '!'] ≠ .error () :=
  ⟨paxml_c5_duration_grammar.2.2.2.2.2.2.2.2.1 ['x', '4'],
    (paxml_c5_duration_grammar.2.2.2.2.2.2.2.2.2 ['4', '5'] ['q'] ['!']
      (by decide) (by decide) (by decide) (by decide)).mpr
      ⟨by decide, Or.inr ⟨'q', rfl, by decide, by decide, by decide,
        by decide⟩⟩,
    fun h =>
      by simpa using
        ((paxml_c5_duration_grammar.2.2.2.2.2.2.2.2.2 ['4', '5'] ['s']
            ['!'] (by decide) (by decide) (by decide) (by decide)).mp
          h).2⟩

/-! ## C6: EMA-decode misconfiguration -/

/-- **C6 counterexample.** The claim asserts that requesting EMA-based
decode without an EMA state is detected at setup, before any train or
decode step runs.  In the code the `ValueError` is raised *inside* the
training loop: at this concrete configuration (decode interval 1, EMA
requested, no EMA state) the run returns the EMA error tagged with step
counter 1 — i.e. it was raised only after the first train step had
already executed and produced step 1, not at setup. -/
theorem paxml_c6_counterexample :
    trainAndEvaluateCommon pjitOps (stepwiseProgram 5 fun st _ => st) c6Cfg
      10 0 sampleState sampleCkpt = .error (.emaUnavailable 1) := rfl

/-- **C6 amended.** Requesting EMA-based decode when the task has no EMA
state is a fatal error, but it is raised at run time inside the training
loop, at the first step that meets the decode interval — after the train
step of that iteration has run (the error carries the post-update step
counter `initial_step + 1` when the decode interval is 1) — not at setup
before any step runs. -/
theorem paxml_c6_ema_error_raised_in_loop {C : Type}
    (ops : CheckpointerOps C) (K : Nat) (f : TrainState → Nat → TrainState)
    (cfg : LoopConfig) (fuel step₀ : Nat) (st₀ : TrainState) (ckpt : C)
    (hdecode : cfg.decodeInputNames ≠ [])
    (hnodupD : cfg.decodeInputNames.Nodup)
    (hnodupE : cfg.evalInputNames.Nodup)
    (hint : cfg.decodeIntervalSteps = 1)
    (hema : cfg.decodeUseEmaStates = true) (hnoema : cfg.hasEma = false)
    (hpre : cfg.exitAfterOndemandCheckpoint = false)
    (hs : step₀ < K) (hfuel : 0 < fuel) :
    trainAndEvaluateCommon ops (stepwiseProgram K f) cfg fuel step₀ st₀ ckpt
      = .error (.emaUnavailable (step₀ + 1)) := by
  obtain ⟨n, rfl⟩ : ∃ n, fuel = n + 1 := ⟨fuel - 1, by omega⟩
  have hne : cfg.decodeInputNames.isEmpty = false := by
    cases hh : cfg.decodeInputNames
    · exact absurd hh hdecode
    · simp
  have hloop : runLoop ops (stepwiseProgram K f) cfg (n + 1) step₀ st₀ ckpt
      = .error (.emaUnavailable (step₀ + 1)) := by
    simp [runLoop, stepwiseProgram, hpre, hs, hint, hema, hnoema, hne,
      Nat.mod_one]
  simp [trainAndEvaluateCommon, hasDuplicateNames_eq_false hnodupD,
    hasDuplicateNames_eq_false hnodupE, hloop]

/-- Witness for the amended C6 at a concrete misconfigured run. -/
theorem paxml_c6_witness :
    trainAndEvaluateCommon pjitOps (stepwiseProgram 3 fun st _ => st)
      ⟨0, 1, true, false, [], ["x"], false, fun _ => false, none⟩ 2 0
      sampleState sampleCkpt = .error (.emaUnavailable (0 + 1)) :=
  paxml_c6_ema_error_raised_in_loop pjitOps 3 (fun st _ => st)
    ⟨0, 1, true, false, [], ["x"], false, fun _ => false, none⟩ 2 0
    sampleState sampleCkpt (by simp) (by simp) List.nodup_nil rfl rfl rfl
    rfl (by omega) (by omega)

/-! ## C7: uniqueness of declared input names -/

theorem hasDuplicateNames_eq_false_iff (l : List String) :
    hasDuplicateNames l = false ↔ l.Nodup := by
  induction l with
  | nil => simp [hasDuplicateNames]
  | cons a t ih =>
    simp [hasDuplicateNames, Bool.or_eq_false_iff, ih, List.nodup_cons,
      List.contains, List.elem_iff]

/-- Every error produced by the loop body itself is the EMA error; the
duplicate-names error can only come from the setup phase. -/
theorem runLoop_error_shape {C : Type} (ops : CheckpointerOps C)
    (prog : TrainProgram) (cfg : LoopConfig) :
    ∀ fuel s : Nat, ∀ st : TrainState, ∀ ckpt : C, ∀ e : LoopError,
      runLoop ops prog cfg fuel s st ckpt = .error e →
        ∃ n, e = .emaUnavailable n := by
  intro fuel
  induction fuel with
  | zero => intro s st ckpt e h; simp [runLoop] at h
  | succ fuel ih =>
    intro s st ckpt e h
    rw [runLoop] at h
    split at h
    · simp at h
    · split at h
      · simp at h
      · split at h
        all_goals try dsimp only at h
        · split at h
          · simp only [Except.error.injEq] at h
            exact ⟨_, h.symm⟩
          · split at h
            · simp at h
            · split at h
              · simp only [Except.error.injEq] at h
                subst h
                exact ih _ _ _ _ (by assumption)
              · simp at h
        · split at h
          · simp only [Except.error.injEq] at h
            exact ⟨_, h.symm⟩
          · split at h
            · simp at h
            · split at h
              · simp only [Except.error.injEq] at h
                subst h
                exact ih _ _ _ _ (by assumption)
              · simp at h

/-- **C7.** A duplicate declared input-source name among the registered
eval or decode programs causes the fatal `duplicateInputNames`
configuration error during setup — independently of the train program
and of the loop fuel, i.e. before any program run — and when all names
are pairwise distinct this error is never raised. -/
theorem paxml_c7_unique_input_names {C : Type} (ops : CheckpointerOps C)
    (prog : TrainProgram) (cfg : LoopConfig) (fuel step₀ : Nat)
    (st₀ : TrainState) (ckpt : C) :
    ((cfg.decodeInputNames ≠ [] ∧ ¬cfg.decodeInputNames.Nodup) ∨
        ¬cfg.evalInputNames.Nodup →
      trainAndEvaluateCommon ops prog cfg fuel step₀ st₀ ckpt
        = .error .duplicateInputNames) ∧
    (cfg.decodeInputNames.Nodup → cfg.evalInputNames.Nodup →
      trainAndEvaluateCommon ops prog cfg fuel step₀ st₀ ckpt
        ≠ .error .duplicateInputNames) := by
  constructor
  · rintro (⟨hne, hdup⟩ | hdup)
    · have hd : hasDuplicateNames cfg.decodeInputNames = true := by
        cases hb : hasDuplicateNames cfg.decodeInputNames
        · exact absurd ((hasDuplicateNames_eq_false_iff _).mp hb) hdup
        · rfl
      have hne' : cfg.decodeInputNames.isEmpty = false := by
        cases hh : cfg.decodeInputNames
        · exact absurd hh hne
        · simp
      simp [trainAndEvaluateCommon, hd, hne']
    · have he : hasDuplicateNames cfg.evalInputNames = true := by
        cases hb : hasDuplicateNames cfg.evalInputNames
        · exact absurd ((hasDuplicateNames_eq_false_iff _).mp hb) hdup
        · rfl
      rw [trainAndEvaluateCommon]
      split
      · rfl
      · simp [he]
  · intro hD hE hcontra
    rw [trainAndEvaluateCommon] at hcontra
    simp only [hasDuplicateNames_eq_false hD, hasDuplicateNames_eq_false hE,
      Bool.and_false, if_false, Bool.false_eq_true, ite_false] at hcontra
    cases hrun : runLoop ops prog cfg fuel step₀ st₀ ckpt with
    | error e =>
      obtain ⟨n, rfl⟩ := runLoop_error_shape ops prog cfg fuel _ _ _ _ hrun
      rw [hrun] at hcontra
      simp at hcontra
    | ok r =>
      rw [hrun] at hcontra
      rcases r with ⟨fs, fst, ck, tr, reason, ec⟩
      cases reason <;> simp at hcontra

/-- Witness for C7: two eval programs that declare the same input name
`"a"` make setup fail with the duplicate-names error even with zero
fuel (no loop iteration possible), and the distinct-names side holds on
the sample run. -/
theorem paxml_c7_witness :
    trainAndEvaluateCommon pjitOps sampleProg c7DupCfg 0 0 sampleState
        sampleCkpt = .error .duplicateInputNames ∧
    trainAndEvaluateCommon pjitOps sampleProg sampleCfg 5 0 sampleState
        sampleCkpt ≠ .error .duplicateInputNames :=
  ⟨(paxml_c7_unique_input_names pjitOps sampleProg c7DupCfg 0 0 sampleState
      sampleCkpt).1 (Or.inr (by decide)),
    (paxml_c7_unique_input_names pjitOps sampleProg sampleCfg 5 0
      sampleState sampleCkpt).2 List.nodup_nil List.nodup_nil⟩

/-! ## C8: proactive preemption exit -/

/-- **C8.** When the proactive-preemption exit is configured and
preemption is signalled, the orchestrator performs the on-demand save of
the current step and state, drains all pending asynchronous saves
(`waitUntilFinished`), and terminates with exit status 1 — the
distinguished code for proactive preemption exit, distinct from the exit
status 0 of normal completion or early stop (proved in C2/C3).  Stated
for the sharded (pjit) checkpointer with saving enabled. -/
theorem paxml_c8_preemption_exit (prog : TrainProgram) (cfg : LoopConfig)
    (fuel step₀ : Nat) (st₀ : TrainState) (m : CheckpointManager)
    (hexit : cfg.exitAfterOndemandCheckpoint = true)
    (hpre : cfg.reachedPreemption step₀ = true)
    (hdec : cfg.decodeInputNames.Nodup) (hev : cfg.evalInputNames.Nodup)
    (hfuel : 0 < fuel) :
    ∃ r : LoopResult PjitCheckpointer,
      trainAndEvaluateCommon pjitOps prog cfg fuel step₀ st₀ ⟨m, true⟩
          = .ok r ∧
        r.reason = .preempted ∧ r.exitCode = 1 ∧
        r.trace = [Event.saveIfNeeded step₀ st₀, Event.waitUntilFinished] ∧
        (step₀, st₀, false) ∈ r.ckpt.manager.saved := by
  obtain ⟨n, rfl⟩ : ∃ n, fuel = n + 1 := ⟨fuel - 1, by omega⟩
  have hloop : runLoop pjitOps prog cfg (n + 1) step₀ st₀ ⟨m, true⟩ =
      .ok ⟨step₀, st₀,
        pjitOps.saveIfNeeded ⟨m, true⟩ (cfg.reachedPreemption step₀) step₀
          st₀,
        [Event.saveIfNeeded step₀ st₀, Event.waitUntilFinished],
        .preempted, 1⟩ := by
    simp [runLoop, hpre, hexit]
  refine ⟨⟨step₀, st₀,
    pjitOps.saveIfNeeded ⟨m, true⟩ (cfg.reachedPreemption step₀) step₀ st₀,
    [Event.saveIfNeeded step₀ st₀, Event.waitUntilFinished],
    .preempted, 1⟩, ?_, rfl, rfl, rfl, ?_⟩
  · simp [trainAndEvaluateCommon, hasDuplicateNames_eq_false hdec,
      hasDuplicateNames_eq_false hev, hloop]
  · simp [pjitOps, PjitCheckpointer.saveIfNeeded,
      CheckpointManager.shouldSave, hpre, PjitCheckpointer.saveWithArgs,
      CheckpointManager.save]

/-- Witness for C8: preemption signalled at the very first iteration. -/
theorem paxml_c8_witness :
    ∃ r : LoopResult PjitCheckpointer,
      trainAndEvaluateCommon pjitOps sampleProg c8Cfg 3 0 sampleState
          ⟨⟨2, []⟩, true⟩ = .ok r ∧
        r.reason = .preempted ∧ r.exitCode = 1 ∧
        r.trace = [Event.saveIfNeeded 0 sampleState,
          Event.waitUntilFinished] ∧
        (0, sampleState, false) ∈ r.ckpt.manager.saved :=
  paxml_c8_preemption_exit sampleProg c8Cfg 3 0 sampleState ⟨2, []⟩ rfl rfl
    List.nodup_nil List.nodup_nil (by omega)

end Paxml
